import Mathlib

/-!
Stepper-motor trapezoidal profile: planner and step scheduler.

A shallow embedding of `stepper_move_T` (src/motor.c) and `speed_decision`
(src/EXTI.c).

Conventions of the embedding.

* C integers are mathematical integers (`Int`); every conversion to a fixed
  width is written out (`u32`, `i32`, `u16`, `u8`).  Signed 32-bit arithmetic
  is two's-complement wrap-around, which is what the 32-bit target computes.
* `/` and `%` on signed operands are the truncating `Int.tdiv` / `Int.tmod`;
  on unsigned operands all values are non-negative and `/` is used.
* A division whose divisor is zero has no result: the planner returns
  `Option`.
* The macros `A_T_x10`, `A_x200`, `A_SQ`, `T1_FREQ_148` are declared outside the
  two source files; they are parameters (`Consts`).  The first-step delay
  `(int32_t)((T1_FREQ_148 * sqrt(A_SQ / accel)) / 10)` is a floating-point
  expression and is a parameter as a function of `accel`.
-/

namespace StepMotor

/-! ## Fixed-width conversions -/

/-- Conversion to `uint32_t`. -/
def u32 (x : Int) : Int := x % 4294967296

/-- Conversion to `int32_t` (two's complement). -/
def i32 (x : Int) : Int := (x + 2147483648) % 4294967296 - 2147483648

/-- Conversion to `uint16_t`. -/
def u16 (x : Int) : Int := x % 65536

/-- Conversion to `uint8_t`. -/
def u8 (x : Int) : Int := x % 256

/-! ## Data model -/

/-- Values of `run_state`. -/
inductive RunState where
  | STOP
  | ACCEL
  | RUN
  | DECEL
  deriving DecidableEq, Repr

/-- Values of `dir`. -/
inductive Dir where
  | CW
  | CCW
  deriving DecidableEq, Repr

/-- The `struct StepperState` of motor.c. -/
structure StepperState where
  dir : Dir
  accel_count : Int
  run_state : RunState
  step_delay : Int
  min_delay : Int
  decel_start : Int
  decel_val : Int
  deriving DecidableEq, Repr

/-- Everything the two routines read or write: the shared `srd` that
`speed_decision` uses, `status.running`, the function-static variables of
`speed_decision`, and the timer and pin registers. -/
structure Machine where
  /-- the file-scope `srd` read and written by `speed_decision` -/
  srd : StepperState
  /-- the flag `status.running` -/
  running : Bool
  /-- static `last_accel_delay` (uint16) -/
  last_accel_delay : Int
  /-- static `step_count` (uint32) -/
  step_count : Int
  /-- static `rest` (int32) -/
  rest : Int
  /-- static `i` (uint8), the edge counter -/
  i : Int
  /-- counter register `TIM2->CNT` -/
  cnt : Int
  /-- compare register of channel 2 -/
  ccr2 : Int
  /-- capture/compare interrupt flag of channel 2 -/
  cc_flag : Bool
  /-- output channel 2 enabled -/
  ch2_on : Bool
  /-- pulse value handed to `TIM_OC2Init` -/
  oc2_pulse : Int
  /-- level of the direction pin (`MOTOR_DIR`) -/
  dir_pin : Dir
  /-- level of the enable pin (`MOTOR_EN`) -/
  en_pin : Bool
  /-- timer enabled (`TIM_Cmd`) -/
  tim_on : Bool
  deriving DecidableEq, Repr

/-- The macros of the planner that are declared outside the source files.
`A_T_x10` and `A_x200` are taken as integer macros, so their arithmetic with
the `uint32_t` arguments is unsigned 32-bit arithmetic. -/
structure Consts where
  /-- macro `A_T_x10` -/
  A_T_x10 : Int
  /-- macro `A_x200` -/
  A_x200 : Int
  /-- value of `(int32_t)((T1_FREQ_148 * sqrt(A_SQ / accel)) / 10)` -/
  first_delay : Int → Int

/-! ## The scheduler `speed_decision` -/

/-- Dividend `(2 * srd.step_delay) + rest` of the recurrence (int32). -/
def recur_num (step_delay rest : Int) : Int := i32 (i32 (2 * step_delay) + rest)

/-- Divisor `4 * srd.accel_count + 1` of the recurrence (int32). -/
def recur_den (accel_count : Int) : Int := i32 (i32 (4 * accel_count) + 1)

/-- Quotient `((2 * srd.step_delay) + rest) / (4 * srd.accel_count + 1)`. -/
def recur_quot (step_delay rest accel_count : Int) : Int :=
  i32 (Int.tdiv (recur_num step_delay rest) (recur_den accel_count))

/-- Remainder `((2 * srd.step_delay) + rest) % (4 * srd.accel_count + 1)`. -/
def recur_rest (step_delay rest accel_count : Int) : Int :=
  Int.tmod (recur_num step_delay rest) (recur_den accel_count)

/-- The `uint16_t new_step_delay` computed in the ACCEL and DECEL branches. -/
def recur_delay (step_delay rest accel_count : Int) : Int :=
  u16 (i32 (step_delay - recur_quot step_delay rest accel_count))

/-- The body executed on the second edge: the `switch (srd.run_state)` of
`speed_decision` followed by `srd.step_delay = new_step_delay`.  The local
`new_step_delay` starts at 0. -/
def process_step (m : Machine) : Machine :=
  match m.srd.run_state with
  | RunState.STOP =>
      { m with
        step_count := 0
        rest := 0
        ch2_on := false
        cc_flag := false
        running := false
        srd := { m.srd with step_delay := 0 } }
  | RunState.ACCEL =>
      let step_count := u32 (m.step_count + 1)
      let accel_count := i32 (m.srd.accel_count + 1)
      let new_step_delay := recur_delay m.srd.step_delay m.rest accel_count
      let rest := recur_rest m.srd.step_delay m.rest accel_count
      if m.srd.decel_start ≤ step_count then
        { m with
          step_count := step_count
          rest := rest
          srd := { m.srd with
            accel_count := m.srd.decel_val
            run_state := RunState.DECEL
            step_delay := new_step_delay } }
      else if new_step_delay ≤ m.srd.min_delay then
        { m with
          step_count := step_count
          last_accel_delay := new_step_delay
          rest := 0
          srd := { m.srd with
            accel_count := accel_count
            run_state := RunState.RUN
            step_delay := u16 m.srd.min_delay } }
      else
        { m with
          step_count := step_count
          rest := rest
          srd := { m.srd with
            accel_count := accel_count
            step_delay := new_step_delay } }
  | RunState.RUN =>
      let step_count := u32 (m.step_count + 1)
      if m.srd.decel_start ≤ step_count then
        { m with
          step_count := step_count
          srd := { m.srd with
            accel_count := m.srd.decel_val
            run_state := RunState.DECEL
            step_delay := m.last_accel_delay } }
      else
        { m with
          step_count := step_count
          srd := { m.srd with step_delay := u16 m.srd.min_delay } }
  | RunState.DECEL =>
      let step_count := u32 (m.step_count + 1)
      let accel_count := i32 (m.srd.accel_count + 1)
      let new_step_delay := recur_delay m.srd.step_delay m.rest accel_count
      let rest := recur_rest m.srd.step_delay m.rest accel_count
      if 0 ≤ accel_count then
        { m with
          step_count := step_count
          rest := rest
          srd := { m.srd with
            accel_count := accel_count
            run_state := RunState.STOP
            step_delay := new_step_delay } }
      else
        { m with
          step_count := step_count
          rest := rest
          srd := { m.srd with
            accel_count := accel_count
            step_delay := new_step_delay } }

/-- The interrupt handler `speed_decision`.  When the compare flag is set it
clears the flag, programs the compare register with counter + `step_delay`,
counts the edge, and on the second edge runs the state machine. -/
def speed_decision (m : Machine) : Machine :=
  if m.cc_flag then
    let tmp := u32 (m.cnt + m.srd.step_delay)
    let i := u8 (m.i + 1)
    let m1 : Machine := { m with cc_flag := false, ccr2 := tmp, i := i }
    if i = 2 then process_step { m1 with i := 0 } else m1
  else m

/-- The hardware raises the compare-match interrupt while the counter reads
`c`, and the handler runs. -/
def isr (c : Int) (m : Machine) : Machine :=
  speed_decision { m with cnt := c, cc_flag := true }

/-- One full pulse: two consecutive interrupts, with counter readings `c.1`
and `c.2`. -/
def pulse (c : Int × Int) (m : Machine) : Machine :=
  isr c.2 (isr c.1 m)

/-- The handler run over a sequence of pulses, first pulse first. -/
def run_pulses : List (Int × Int) → Machine → Machine
  | [], m => m
  | c :: cs, m => run_pulses cs (pulse c m)

/-! ## The planner `stepper_move_T` -/

/-- C division of unsigned operands; no result for a zero divisor. -/
def udiv (a b : Int) : Option Int := if b = 0 then none else some (a / b)

/-- The local `srd` right after its initialisation (motor.c lines 34 to 40). -/
def srd_init : StepperState :=
  { dir := Dir.CW, accel_count := 0, run_state := RunState.ACCEL, step_delay := 0,
    min_delay := 0, decel_start := 0, decel_val := 0 }

/-- The direction chosen from the sign of `step` (lines 52 to 60). -/
def plan_dir (step : Int) : Dir := if step < 0 then Dir.CCW else Dir.CW

/-- The value of `step` after `step = -step` on the negative branch. -/
def plan_abs (step : Int) : Int := if step < 0 then i32 (-step) else step

/-- The variable `max_s_lim` after lines 88 to 93. -/
def plan_max_s_lim (K : Consts) (accel speed : Int) : Option Int := do
  let t ← udiv (u32 (K.A_x200 * accel)) 10
  let m ← udiv (u32 (speed * speed)) t
  pure (if m = 0 then 1 else m)

/-- The variable `accel_lim` after lines 96 to 101; `step` is the value
after the sign has been removed. -/
def plan_accel_lim (step accel decel : Int) : Option Int := do
  let a ← udiv (u32 (u32 step * decel)) (u32 (accel + decel))
  pure (if a = 0 then 1 else a)

/-- The field `decel_val` after lines 103 to 116. -/
def plan_decel_val (step accel decel max_s_lim accel_lim : Int) : Option Int := do
  let v ←
    if accel_lim ≤ max_s_lim then
      pure (i32 (u32 (accel_lim - u32 step)))
    else do
      let x ← udiv (u32 (max_s_lim * accel)) decel
      pure (i32 (u32 (-x)))
  pure (if v = 0 then -1 else v)

/-- The first-step delay `(int32_t)((T1_FREQ_148 * sqrt(A_SQ / accel)) / 10)`
of line 85; no result when `accel = 0` (division `A_SQ / accel`). -/
def plan_first_delay (K : Consts) (accel : Int) : Option Int :=
  if accel = 0 then none else some (i32 (K.first_delay accel))

/-- The local `srd` of `stepper_move_T` at the end of the `if`/`else if`
chain (line 134), for the arguments `step`, `accel`, `decel`, `speed`; for
`step = 0` the value at the `return` of line 50.  `none` when a division by
zero is executed (`A_SQ / accel` with `accel = 0` included). -/
def plan_srd (K : Consts) (step accel decel speed : Int) : Option StepperState :=
  if step = 0 then some srd_init
  else
    let srd : StepperState := { srd_init with dir := plan_dir step }
    let step := plan_abs step
    if step = 1 then
      some { srd with accel_count := -1, run_state := RunState.DECEL, step_delay := 1000 }
    else if step ≠ 0 then do
      let q ← udiv (u32 K.A_T_x10) speed
      let min_delay := i32 q
      let step_delay ← plan_first_delay K accel
      let max_s_lim ← plan_max_s_lim K accel speed
      let accel_lim ← plan_accel_lim step accel decel
      let decel_val ← plan_decel_val step accel decel max_s_lim accel_lim
      let decel_start := u32 (i32 (step + decel_val))
      if step_delay ≤ min_delay then
        pure { srd with
          min_delay := min_delay, decel_val := decel_val, decel_start := decel_start,
          step_delay := min_delay, run_state := RunState.RUN, accel_count := 0 }
      else
        pure { srd with
          min_delay := min_delay, decel_val := decel_val, decel_start := decel_start,
          step_delay := step_delay, run_state := RunState.ACCEL, accel_count := 0 }
    else some srd

/-- The routine `stepper_move_T` on the whole machine.  The routine declares
its own `struct StepperState srd` (line 31), so every assignment to
`srd` lands in that local and the shared `srd` of the machine is not written;
the flag `status.running`, the direction and enable pins and the timer are. -/
def stepper_move_T (K : Consts) (m : Machine) (step accel decel speed : Int) :
    Option Machine :=
  if step = 0 then some m
  else do
    let srd ← plan_srd K step accel decel speed
    pure { m with
      dir_pin := srd.dir
      running := true
      ccr2 := u32 (m.cnt + srd.step_delay)
      ch2_on := true
      oc2_pulse := srd.step_delay
      en_pin := true
      tim_on := true }

/-- The machine in which the shared `srd` holds the profile the planner
computed for the move, and everything else is as `stepper_move_T` leaves
it: the starting point of the scheduler for a planned move.  A request of
zero steps plans nothing and leaves the machine as it is. -/
def planned (K : Consts) (m : Machine) (step accel decel speed : Int) :
    Option Machine :=
  if step = 0 then some m
  else do
    let srd ← plan_srd K step accel decel speed
    let m1 ← stepper_move_T K m step accel decel speed
    pure { m1 with srd := srd }

/-! ## Auxiliary definitions for the statements -/

/-- The value of `max_s_lim` when its divisor `A_x200 * accel / 10` is not
zero. -/
def max_s_lim_of (K : Consts) (accel speed : Int) : Int :=
  let m := u32 (speed * speed) / (u32 (K.A_x200 * accel) / 10)
  if m = 0 then 1 else m

/-- Sample values for the macros, those of a 200 steps per revolution motor
on a 1 MHz timer, with a first-step delay of 60000 ticks. -/
def K_sample : Consts :=
  { A_T_x10 := 314159, A_x200 := 628, first_delay := fun _ => 60000 }

/-- An idle machine: shared profile in STOP, all counters and registers 0. -/
def idle : Machine :=
  { srd := { srd_init with run_state := RunState.STOP }, running := false,
    last_accel_delay := 0, step_count := 0, rest := 0, i := 0, cnt := 0, ccr2 := 0,
    cc_flag := false, ch2_on := false, oc2_pulse := 0, dir_pin := Dir.CW, en_pin := false,
    tim_on := false }

/-- A machine in ACCEL at the start of a move: the profile planned for
`step = 10, accel = 10, decel = 10, speed = 1000` with `K_sample`. -/
def accel_state : Machine :=
  { idle with
    running := true
    srd := { srd_init with
      run_state := RunState.ACCEL, step_delay := 60000, min_delay := 314,
      decel_start := 5, decel_val := -5 } }

/-- A machine in the middle of DECEL: the same move after six pulses. -/
def decel_state : Machine :=
  { idle with
    running := true, step_count := 6, rest := 2
    srd := { srd_init with
      run_state := RunState.DECEL, accel_count := -4, step_delay := 21438, min_delay := 314,
      decel_start := 5, decel_val := -5 } }

/-- A machine two steps before the end of DECEL with a delay close to the
16-bit limit: the move `step = 10, accel = 30, decel = 10, speed = 1000` with
`K_sample` after eight pulses. -/
def decel_wrap_state : Machine :=
  { idle with
    running := true, step_count := 8, rest := 3
    srd := { srd_init with
      run_state := RunState.DECEL, accel_count := -2, step_delay := 62219, min_delay := 314,
      decel_start := 2, decel_val := -8 } }

/-- A machine before the second edge of the last DECEL pulse of the
ten-step move (`accel_count = -1`, edge counter 1). -/
def last_decel_state : Machine :=
  { idle with
    running := true, step_count := 9, i := 1
    srd := { srd_init with
      run_state := RunState.DECEL, accel_count := -1, step_delay := 54292, min_delay := 314,
      decel_start := 5, decel_val := -5 } }

/-- A machine forced to STOP in the middle of ACCEL: the ten-step move after
three pulses (`accel_count = 3`, `step_count = 3`, `rest = 9`) with
`run_state` overwritten by STOP. -/
def stopped_mid_accel : Machine :=
  { idle with
    running := true, step_count := 3, rest := 9
    srd := { srd_init with
      run_state := RunState.STOP, accel_count := 3, step_delay := 23693, min_delay := 314,
      decel_start := 5, decel_val := -5 } }

/-- Along the pulses `cs` from `m`, every pulse taken in ACCEL before
`decel_start` computes a new delay above `min_delay` (so the branch to RUN is
not taken). -/
def AccelAbove : List (Int × Int) → Machine → Prop
  | [], _ => True
  | c :: cs, m =>
      (m.srd.run_state = RunState.ACCEL →
        m.srd.decel_start ≤ u32 (m.step_count + 1) ∨
        m.srd.min_delay <
          recur_delay m.srd.step_delay m.rest (i32 (m.srd.accel_count + 1))) ∧
      AccelAbove cs (pulse c m)

/-- An ACCEL state with a small delay and the largest int32 remainder: the
dividend `2 * step_delay + rest` of the recurrence exceeds the int32 range. -/
def rest_overflow_state : Machine :=
  { idle with
    running := true, rest := 2147483647
    srd := { srd_init with
      run_state := RunState.ACCEL, step_delay := 1, min_delay := 0,
      decel_start := 5, decel_val := -5 } }

/-- Whether `AccelAbove` holds can be computed along the pulses. -/
instance AccelAbove.decidable :
    (cs : List (Int × Int)) → (m : Machine) → Decidable (AccelAbove cs m)
  | [], _ => isTrue trivial
  | c :: cs, m =>
      match AccelAbove.decidable cs (pulse c m) with
      | isTrue h =>
          if h1 : m.srd.run_state = RunState.ACCEL →
              m.srd.decel_start ≤ u32 (m.step_count + 1) ∨
              m.srd.min_delay <
                recur_delay m.srd.step_delay m.rest (i32 (m.srd.accel_count + 1))
          then isTrue ⟨h1, h⟩
          else isFalse (fun hc => h1 hc.1)
      | isFalse h => isFalse (fun hc => h hc.2)

/-! # Theorems -/

/-! ## Basic facts about the conversions -/

theorem u32_of_range {x : Int} (h0 : 0 ≤ x) (h1 : x < 4294967296) : u32 x = x := by
  unfold u32; omega

theorem i32_of_range {x : Int} (h0 : -2147483648 ≤ x) (h1 : x < 2147483648) : i32 x = x := by
  unfold i32; omega

theorem u16_of_range {x : Int} (h0 : 0 ≤ x) (h1 : x < 65536) : u16 x = x := by
  unfold u16; omega

theorem u16_bounds (x : Int) : 0 ≤ u16 x ∧ u16 x < 65536 := by
  unfold u16; omega

/-- The recurrence divisor is never zero, whatever `accel_count` is. -/
theorem recur_den_ne_zero (n : Int) : recur_den n ≠ 0 := by
  unfold recur_den i32; omega

/-! ## One pulse is one processed step -/

/-- From edge parity 0, two interrupts run the state machine exactly once. -/
theorem pulse_eq_process (c : Int × Int) (m : Machine) (hi : m.i = 0) :
    pulse c m = process_step
      { m with cnt := c.2, cc_flag := false, ccr2 := u32 (c.2 + m.srd.step_delay), i := 0 } := by
  simp [pulse, isr, speed_decision, hi, u8]

/-- A pulse started at edge parity 0 ends at edge parity 0. -/
theorem pulse_i (c : Int × Int) (m : Machine) (hi : m.i = 0) : (pulse c m).i = 0 := by
  rw [pulse_eq_process c m hi]
  unfold process_step
  cases h : m.srd.run_state <;> simp [h] <;> (repeat' split) <;> rfl

/-! ## The step-counting invariant of a move -/

/-- The deceleration budget computed by the planner: it is negative and
leaves at least one step before deceleration starts. -/
theorem plan_decel_val_range (s a d M N : Int) (hs : u32 s = N)
    (hN2 : 2 ≤ N) (hN31 : N ≤ 2147483648) (ha : 0 < a) (hd : 0 < d)
    (had : a + d < 4294967296) (hNd : N * d < 4294967296)
    (hM : 1 ≤ M) (hMa : M * a < 4294967296) :
    ∃ al v, plan_accel_lim s a d = some al ∧ plan_decel_val s a d M al = some v ∧
      1 ≤ al ∧ 1 - N ≤ v ∧ v < 0 ∧
      (al ≤ M → v = al - N) ∧
      (M < al → v = (if M * a / d = 0 then -1 else -(M * a / d)) ∧ M + 1 - N ≤ v) := by
  have hNd0 : 0 ≤ N * d := by positivity
  have hMa0 : 0 ≤ M * a := by positivity
  have e1 : u32 (a + d) = a + d := u32_of_range (by omega) had
  have e2 : u32 (u32 s * d) = N * d := by rw [hs]; exact u32_of_range hNd0 hNd
  have e3 : u32 (M * a) = M * a := u32_of_range hMa0 hMa
  have hq0 : 0 ≤ N * d / (a + d) := Int.ediv_nonneg hNd0 (by omega)
  have hqle : N * d / (a + d) * (a + d) ≤ N * d := Int.ediv_mul_le _ (by omega)
  have hqlt : N * d / (a + d) < N := by
    apply Int.ediv_lt_of_lt_mul (by omega)
    nlinarith
  have hx0 : 0 ≤ M * a / d := Int.ediv_nonneg hMa0 (by omega)
  have hxle : M * a / d * d ≤ M * a := Int.ediv_mul_le _ (by omega)
  have hNlt : N < 4294967296 := by nlinarith
  have hne : a + d ≠ 0 := by omega
  have hdne : d ≠ 0 := by omega
  have e2b : u32 (N * d) = N * d := u32_of_range hNd0 hNd
  simp only [plan_accel_lim, plan_decel_val, udiv, e1, e2b, e3, hs, hne, hdne, if_false,
    Option.bind_eq_bind, Option.some_bind, Option.pure_def, Option.bind_some]
  by_cases hq : N * d / (a + d) = 0
  · -- accel_lim forced to 1, which is at most max_s_lim
    have hv : i32 (u32 (1 - N)) = 1 - N := by unfold i32 u32; omega
    have hv0 : ¬ (1 - N = 0) := by omega
    refine ⟨1, 1 - N, by simp [hq], by simp [hM, hv, hv0], le_refl _, le_refl _, by omega,
      fun _ => rfl, fun h => by omega⟩
  · by_cases hb : N * d / (a + d) ≤ M
    · have hv : i32 (u32 (N * d / (a + d) - N)) = N * d / (a + d) - N := by
        unfold i32 u32; omega
      have hv0 : ¬ (N * d / (a + d) - N = 0) := by omega
      refine ⟨N * d / (a + d), N * d / (a + d) - N, by simp [hq], by simp [hb, hv, hv0],
        by omega, by omega, by omega, fun _ => rfl, fun h => by omega⟩
    · have hxlt : M * a / d < N - M := by
        apply Int.ediv_lt_of_lt_mul (by omega)
        nlinarith
      have hv : i32 (u32 (-(M * a / d))) = -(M * a / d) := by unfold i32 u32; omega
      by_cases hz : M * a / d = 0
      · have hv1 : i32 (u32 (-(M * a / d))) = 0 := by rw [hv, hz]; rfl
        refine ⟨N * d / (a + d), -1, by simp [hq], by simp [hb, hv1],
          by omega, by omega, by omega, fun h => by omega, fun _ => ⟨by simp [hz], by omega⟩⟩
      · refine ⟨N * d / (a + d), -(M * a / d), by simp [hq], by simp [hb, hv, hz],
          by omega, by omega, by omega, fun h => by omega, fun _ => ⟨by simp [hz], by omega⟩⟩

theorem plan_max_s_lim_eq (K : Consts) (accel speed : Int)
    (hK : 10 ≤ u32 (K.A_x200 * accel)) :
    plan_max_s_lim K accel speed = some (max_s_lim_of K accel speed) := by
  have h10 : u32 (K.A_x200 * accel) / 10 ≠ 0 := by omega
  simp [plan_max_s_lim, max_s_lim_of, udiv, h10]

theorem max_s_lim_of_pos (K : Consts) (accel speed : Int) :
    1 ≤ max_s_lim_of K accel speed := by
  unfold max_s_lim_of
  have h0 : 0 ≤ u32 (speed * speed) / (u32 (K.A_x200 * accel) / 10) := by
    apply Int.ediv_nonneg
    · unfold u32; omega
    · unfold u32; omega
  simp only []
  split <;> omega

/-- The unsigned value of `step` after the sign has been removed is `|step|`. -/
theorem u32_plan_abs (step : Int) (hlo : -2147483648 ≤ step) (hhi : step < 2147483648) :
    u32 (plan_abs step) = step.natAbs := by
  unfold plan_abs u32 i32
  split <;> omega

/-- What the planner computes for a move of at least two steps. -/
theorem plan_srd_general (K : Consts) (step accel decel speed : Int)
    (hlo : -2147483648 ≤ step) (hhi : step < 2147483648) (h2 : 2 ≤ step.natAbs)
    (ha : 0 < accel) (hd : 0 < decel) (hs : 0 < speed)
    (hK : 10 ≤ u32 (K.A_x200 * accel))
    (hsd : (step.natAbs : Int) * decel < 4294967296) (had : accel + decel < 4294967296)
    (hMa : max_s_lim_of K accel speed * accel < 4294967296) :
    ∃ p al, plan_srd K step accel decel speed = some p ∧
      plan_accel_lim (plan_abs step) accel decel = some al ∧
      p.dir = plan_dir step ∧ p.accel_count = 0 ∧
      (p.run_state = RunState.ACCEL ∨ p.run_state = RunState.RUN) ∧
      (p.run_state = RunState.RUN ↔ i32 (K.first_delay accel) ≤ p.min_delay) ∧
      p.min_delay = i32 (u32 K.A_T_x10 / speed) ∧
      p.step_delay = (if i32 (K.first_delay accel) ≤ p.min_delay then p.min_delay
        else i32 (K.first_delay accel)) ∧
      p.decel_val < 0 ∧ p.decel_start = step.natAbs + p.decel_val ∧ 1 ≤ p.decel_start ∧
      (al ≤ max_s_lim_of K accel speed → p.decel_val = al - step.natAbs) ∧
      (max_s_lim_of K accel speed < al →
        p.decel_val = (if max_s_lim_of K accel speed * accel / decel = 0 then -1
          else -(max_s_lim_of K accel speed * accel / decel))) := by
  have hN := u32_plan_abs step hlo hhi
  obtain ⟨al, v, hal, hv, hal1, hv1, hv0, hbr1, hbr2⟩ :=
    plan_decel_val_range (plan_abs step) accel decel (max_s_lim_of K accel speed)
      step.natAbs hN (by omega) (by omega) ha hd had hsd (max_s_lim_of_pos K accel speed) hMa
  have h0 : step ≠ 0 := by omega
  have hp1 : plan_abs step ≠ 1 := by unfold plan_abs i32; split <;> omega
  have hp0 : plan_abs step ≠ 0 := by unfold plan_abs i32; split <;> omega
  have hsp : speed ≠ 0 := by omega
  have hac : accel ≠ 0 := by omega
  have hds : u32 (i32 (plan_abs step + v)) = step.natAbs + v := by
    unfold plan_abs u32 i32 at *
    split at hN <;> simp_all <;> omega
  have hM := plan_max_s_lim_eq K accel speed hK
  by_cases hrun : i32 (K.first_delay accel) ≤ i32 (u32 K.A_T_x10 / speed)
  · refine ⟨{ srd_init with
        dir := plan_dir step, min_delay := i32 (u32 K.A_T_x10 / speed), decel_val := v,
        decel_start := step.natAbs + v, step_delay := i32 (u32 K.A_T_x10 / speed),
        run_state := RunState.RUN, accel_count := 0 }, al, ?_, hal, rfl, rfl, Or.inr rfl,
      ?_, rfl, ?_, hv0, rfl, ?_, hbr1, fun h => (hbr2 h).1⟩
    · simp [plan_srd, plan_first_delay, h0, hp1, hp0, udiv, hsp, hac, hM, hal, hv, hds, hrun]
    · simp [hrun]
    · simp [hrun]
    · show (1 : Int) ≤ step.natAbs + v
      omega
  · refine ⟨{ srd_init with
        dir := plan_dir step, min_delay := i32 (u32 K.A_T_x10 / speed), decel_val := v,
        decel_start := step.natAbs + v, step_delay := i32 (K.first_delay accel),
        run_state := RunState.ACCEL, accel_count := 0 }, al, ?_, hal, rfl, rfl, Or.inl rfl,
      ?_, rfl, ?_, hv0, rfl, ?_, hbr1, fun h => (hbr2 h).1⟩
    · simp [plan_srd, plan_first_delay, h0, hp1, hp0, udiv, hsp, hac, hM, hal, hv, hds, hrun]
    · simp [hrun]
    · simp [hrun]
    · show (1 : Int) ≤ step.natAbs + v
      omega

/-- C2 (evaluation of the code). `stepper_move_T 1 100 100 100` on the idle
machine: the planner's own `srd` is in DECEL with `accel_count = -1` and
`step_delay = 1000`, while the shared `srd` that `speed_decision` reads is
still the idle one (STOP, `accel_count = 0`, `step_delay = 0`); only
`status.running` and the timer registers have changed. -/
theorem planner_writes_private_copy :
    plan_srd K_sample 1 100 100 100 =
      some { srd_init with accel_count := -1, run_state := RunState.DECEL, step_delay := 1000 } ∧
    stepper_move_T K_sample idle 1 100 100 100 =
      some { idle with running := true, ccr2 := 1000, ch2_on := true, oc2_pulse := 1000,
                       en_pin := true, tim_on := true } ∧
    (stepper_move_T K_sample idle 1 100 100 100).map (fun m => m.srd) = some idle.srd ∧
    idle.srd.run_state = RunState.STOP := by
  decide

/-- C3. For `|step| ≥ 2`, nonzero `accel`, `decel`, `speed` and no 32-bit
overflow in `step * decel`, `accel + decel` and `max_s_lim * accel` (and a
nonzero divisor `A_x200 * accel / 10`), the planner has a result, and in it
`decel_val < 0`, `decel_start = |step| + decel_val` and
`decel_start ≤ |step|`. -/
theorem decel_budget_within_move (K : Consts) (step accel decel speed : Int)
    (hlo : -2147483648 ≤ step) (hhi : step < 2147483648) (h2 : 2 ≤ step.natAbs)
    (ha : 0 < accel) (hd : 0 < decel) (hs : 0 < speed)
    (hK : 10 ≤ u32 (K.A_x200 * accel))
    (hsd : (step.natAbs : Int) * decel < 4294967296) (had : accel + decel < 4294967296)
    (hMa : max_s_lim_of K accel speed * accel < 4294967296) :
    ∃ p, plan_srd K step accel decel speed = some p ∧
      p.decel_val < 0 ∧ p.decel_start = step.natAbs + p.decel_val ∧
      p.decel_start ≤ step.natAbs := by
  obtain ⟨p, _, hp, _, _, _, _, _, _, _, hv0, hds, _, _, _⟩ :=
    plan_srd_general K step accel decel speed hlo hhi h2 ha hd hs hK hsd had hMa
  exact ⟨p, hp, hv0, hds, by omega⟩

/-- Witness of C3: scenario B (1000 steps, accel = decel = speed = 100). -/
theorem decel_budget_within_move_witness :
    ∃ p, plan_srd K_sample 1000 100 100 100 = some p ∧
      p.decel_val < 0 ∧ p.decel_start = (1000 : Int).natAbs + p.decel_val ∧
      p.decel_start ≤ (1000 : Int).natAbs :=
  decel_budget_within_move K_sample 1000 100 100 100 (by decide) (by decide) (by decide)
    (by decide) (by decide) (by decide) (by decide) (by decide) (by decide) (by decide)

/-- C9. A request of zero steps returns at once: for every `accel`, `decel`
and `speed`, zero included, the machine (shared profile, running flag, timer
and pins) is left exactly as it was. -/
theorem zero_steps_is_noop (K : Consts) (m : Machine) (accel decel speed : Int) :
    stepper_move_T K m 0 accel decel speed = some m := by
  simp [stepper_move_T]

theorem recur_num_eq (sd rest : Int) (h0 : -2147483648 ≤ 2 * sd + rest)
    (h1 : 2 * sd + rest < 2147483648) : recur_num sd rest = 2 * sd + rest := by
  unfold recur_num i32; omega

theorem recur_den_eq (n : Int) (h0 : -2147483648 ≤ 4 * n + 1)
    (h1 : 4 * n + 1 < 2147483648) : recur_den n = 4 * n + 1 := by
  unfold recur_den i32; omega

/-- A truncated quotient of an int32 by an int32 other than 0 and -1 is an
int32. -/
theorem tdiv_in_range (a b : Int) (ha0 : -2147483648 ≤ a) (ha1 : a < 2147483648)
    (hb0 : b ≠ 0) (hb1 : b ≠ -1) :
    -2147483648 ≤ Int.tdiv a b ∧ Int.tdiv a b < 2147483648 := by
  by_cases hb : b = 1
  · subst hb; simp; omega
  · have hn : (Int.tdiv a b).natAbs = a.natAbs / b.natAbs := by
      rw [Int.natAbs_tdiv]; rfl
    have hb2 : 2 ≤ b.natAbs := by omega
    have hle : a.natAbs / b.natAbs ≤ a.natAbs / 2 :=
      Nat.div_le_div_left hb2 (by decide)
    omega

theorem recur_quot_eq (sd rest n : Int) (h0 : -2147483648 ≤ 2 * sd + rest)
    (h1 : 2 * sd + rest < 2147483648) (h2 : -2147483648 ≤ 4 * n + 1)
    (h3 : 4 * n + 1 < 2147483648) :
    recur_quot sd rest n = Int.tdiv (2 * sd + rest) (4 * n + 1) := by
  unfold recur_quot
  rw [recur_num_eq sd rest h0 h1, recur_den_eq n h2 h3]
  obtain ⟨ha, hb⟩ := tdiv_in_range (2 * sd + rest) (4 * n + 1) h0 h1 (by omega) (by omega)
  exact i32_of_range ha hb

theorem recur_rest_eq (sd rest n : Int) (h0 : -2147483648 ≤ 2 * sd + rest)
    (h1 : 2 * sd + rest < 2147483648) (h2 : -2147483648 ≤ 4 * n + 1)
    (h3 : 4 * n + 1 < 2147483648) :
    recur_rest sd rest n = Int.tmod (2 * sd + rest) (4 * n + 1) := by
  unfold recur_rest
  rw [recur_num_eq sd rest h0 h1, recur_den_eq n h2 h3]

/-- C4. At an application of the delay recurrence with `n` the incremented
`accel_count` and `q` the truncated quotient subtracted from `step_delay`,
`2 * step_delay + rest = q * (4 * n + 1) + rest_new` holds exactly, for
positive and for negative divisors, whenever the two int32 expressions
`2 * step_delay + rest` and `4 * n + 1` do not overflow. -/
theorem rest_carry_exact (sd rest n : Int)
    (h0 : -2147483648 ≤ 2 * sd + rest) (h1 : 2 * sd + rest < 2147483648)
    (h2 : -2147483648 ≤ 4 * n + 1) (h3 : 4 * n + 1 < 2147483648) :
    2 * sd + rest = recur_quot sd rest n * (4 * n + 1) + recur_rest sd rest n := by
  rw [recur_quot_eq sd rest n h0 h1 h2 h3, recur_rest_eq sd rest n h0 h1 h2 h3]
  exact (Int.tdiv_add_tmod' (2 * sd + rest) (4 * n + 1)).symm

/-- Witness of C4: a DECEL application with the negative divisor -15. -/
theorem rest_carry_exact_witness :
    2 * 21438 + 2 = recur_quot 21438 2 (-4) * (4 * (-4) + 1) + recur_rest 21438 2 (-4) :=
  rest_carry_exact 21438 2 (-4) (by decide) (by decide) (by decide) (by decide)

/-- The ACCEL recurrence with a carried remainder below the divisor never
raises the delay. -/
theorem recur_delay_accel (sd rest n : Int) (hsd : 0 ≤ sd) (hr0 : 0 ≤ rest)
    (hr1 : rest ≤ 4 * n) (hn : 1 ≤ n) (hn1 : n < 536870912)
    (hnum : 2 * sd + rest < 2147483648) :
    recur_delay sd rest n ≤ sd ∧ 0 ≤ recur_delay sd rest n ∧
    recur_delay sd rest n = u16 (sd - (2 * sd + rest) / (4 * n + 1)) := by
  have hq : recur_quot sd rest n = (2 * sd + rest) / (4 * n + 1) := by
    rw [recur_quot_eq sd rest n (by omega) hnum (by omega) (by omega)]
    exact Int.tdiv_eq_ediv (by omega) (by omega)
  have hq0 : 0 ≤ (2 * sd + rest) / (4 * n + 1) := Int.ediv_nonneg (by omega) (by omega)
  have hq1 : (2 * sd + rest) / (4 * n + 1) < sd + 1 := by
    apply Int.ediv_lt_of_lt_mul (by omega)
    nlinarith
  unfold recur_delay
  rw [hq, i32_of_range (by omega) (by omega)]
  refine ⟨?_, ?_, rfl⟩ <;> unfold u16 <;> omega

/-- The DECEL recurrence before the last step (negative divisor) adds the
quotient to the delay. -/
theorem recur_delay_decel (sd rest n : Int) (hsd : 0 ≤ sd) (hr0 : 0 ≤ rest)
    (hn0 : -536870912 ≤ n) (hn : n ≤ -1) (hnum : 2 * sd + rest < 2147483648) :
    recur_delay sd rest n = u16 (i32 (sd + (2 * sd + rest) / (-(4 * n + 1)))) ∧
    0 ≤ (2 * sd + rest) / (-(4 * n + 1)) := by
  have hq : recur_quot sd rest n = -((2 * sd + rest) / (-(4 * n + 1))) := by
    rw [recur_quot_eq sd rest n (by omega) hnum (by omega) (by omega)]
    have e : (4 * n + 1) = -(-(4 * n + 1)) := by omega
    rw [e, Int.tdiv_neg, Int.tdiv_eq_ediv (by omega) (by omega)]
    simp
  have hq0 : 0 ≤ (2 * sd + rest) / (-(4 * n + 1)) := Int.ediv_nonneg (by omega) (by omega)
  unfold recur_delay
  rw [hq]
  refine ⟨?_, hq0⟩
  congr 2
  omega

/-- C5 (amended). A pulse taken in ACCEL from a state with `0 ≤ accel_count`,
`step_delay ≥ 0`, `0 ≤ rest ≤ 4 * (accel_count + 1)`, `min_delay ≤ step_delay`
and no int32 overflow stores a `step_delay` that is at most the previous one.
A pulse taken in DECEL before the last step (`accel_count < -1`) from a state
with `step_delay ≥ 0`, `rest ≥ 0`, no int32 overflow, and whose new delay
`step_delay + (2 * step_delay + rest) / |4 * n + 1|` fits 16 bits stores a
`step_delay` that is at least the previous one. -/
theorem delay_monotone_in_phases (m : Machine) (c : Int × Int) (hi : m.i = 0)
    (hsd : 0 ≤ m.srd.step_delay) (hr0 : 0 ≤ m.rest)
    (hnum : 2 * m.srd.step_delay + m.rest < 2147483648) :
    (m.srd.run_state = RunState.ACCEL → 0 ≤ m.srd.accel_count →
      m.srd.accel_count < 536870911 → m.rest ≤ 4 * (m.srd.accel_count + 1) → m.srd.min_delay ≤ m.srd.step_delay →
      (pulse c m).srd.step_delay ≤ m.srd.step_delay) ∧
    (m.srd.run_state = RunState.DECEL → -536870913 ≤ m.srd.accel_count →
      m.srd.accel_count < -1 →
      m.srd.step_delay + (2 * m.srd.step_delay + m.rest) / (-(4 * (m.srd.accel_count + 1) + 1))
        ≤ 65535 →
      m.srd.step_delay ≤ (pulse c m).srd.step_delay) := by
  constructor
  · intro hrs ha0 hacc hr1 hmin
    have ha : i32 (m.srd.accel_count + 1) = m.srd.accel_count + 1 :=
      i32_of_range (by omega) (by omega)
    obtain ⟨hle, h0, _⟩ := recur_delay_accel m.srd.step_delay m.rest (m.srd.accel_count + 1)
      hsd hr0 hr1 (by omega) (by omega) hnum
    rw [pulse_eq_process c m hi]
    unfold process_step
    simp only [hrs, ha]
    split
    · exact hle
    · split
      · rename_i hrun
        show u16 m.srd.min_delay ≤ m.srd.step_delay
        have : 0 ≤ m.srd.min_delay := le_trans h0 hrun
        unfold u16; omega
      · exact hle
  · intro hrs ha0 ha1 hfit
    have ha : i32 (m.srd.accel_count + 1) = m.srd.accel_count + 1 :=
      i32_of_range (by omega) (by omega)
    obtain ⟨he, hq0⟩ := recur_delay_decel m.srd.step_delay m.rest (m.srd.accel_count + 1)
      hsd hr0 (by omega) (by omega) hnum
    have hval : recur_delay m.srd.step_delay m.rest (m.srd.accel_count + 1) =
        m.srd.step_delay +
          (2 * m.srd.step_delay + m.rest) / (-(4 * (m.srd.accel_count + 1) + 1)) := by
      rw [he, i32_of_range (by omega) (by omega), u16_of_range (by omega) (by omega)]
    rw [pulse_eq_process c m hi]
    unfold process_step
    simp only [hrs, ha]
    split
    · omega
    · show m.srd.step_delay ≤ recur_delay m.srd.step_delay m.rest (m.srd.accel_count + 1)
      omega

/-- Witness of C5: the first ACCEL pulse of a move and a DECEL pulse in the
middle of the ramp. -/
theorem delay_monotone_in_phases_witness :
    (pulse (0, 0) accel_state).srd.step_delay ≤ accel_state.srd.step_delay ∧
    decel_state.srd.step_delay ≤ (pulse (0, 0) decel_state).srd.step_delay :=
  ⟨(delay_monotone_in_phases accel_state (0, 0) rfl (by decide) (by decide) (by decide)).1
      rfl (by decide) (by decide) (by decide) (by decide),
   (delay_monotone_in_phases decel_state (0, 0) rfl (by decide) (by decide) (by decide)).2
      rfl (by decide) (by decide) (by decide)⟩

/-- C5 (counterexample). In the two-step move planned with `K_sample` for
`accel = decel = 10, speed = 1000`, the first pulse leaves the machine in
DECEL with `step_delay = 36000`, and the second pulse, taken in DECEL (the
last step, `accel_count` reaching 0), stores `29536`, which is smaller.
Two steps before the end of a longer ramp, a DECEL pulse from
`step_delay = 62219` stores `38163`: the new delay 103697 does not fit the
16-bit `new_step_delay`. -/
theorem decel_step_can_lower_delay :
    (planned K_sample idle 2 10 10 1000).map
        (fun m0 => ((pulse (0, 0) m0).srd.run_state, (pulse (0, 0) m0).srd.step_delay,
          (pulse (0, 0) (pulse (0, 0) m0)).srd.step_delay)) =
      some (RunState.DECEL, 36000, 29536) ∧
    decel_wrap_state.srd.run_state = RunState.DECEL ∧
    (pulse (0, 0) decel_wrap_state).srd.run_state = RunState.DECEL ∧
    ¬ (decel_wrap_state.srd.step_delay ≤ (pulse (0, 0) decel_wrap_state).srd.step_delay) := by
  decide

/-! ## The floor on the delay -/

/-- C8 (amended). A DECEL pulse taken with a negative `accel_count` that
leaves `run_state = STOP` (the step completing a move) leaves `rest = 0` and
`accel_count = 0`.  A pulse taken in STOP keeps STOP, sets `rest = 0` and
`step_count = 0`, and leaves `accel_count` as it was. -/
theorem stop_resets (m : Machine) (c : Int × Int) (hi : m.i = 0) :
    (m.srd.run_state = RunState.DECEL → -2147483648 ≤ m.srd.accel_count →
      m.srd.accel_count < 0 → (pulse c m).srd.run_state = RunState.STOP →
      (pulse c m).rest = 0 ∧ (pulse c m).srd.accel_count = 0) ∧
    (m.srd.run_state = RunState.STOP →
      (pulse c m).srd.run_state = RunState.STOP ∧ (pulse c m).rest = 0 ∧
      (pulse c m).step_count = 0 ∧ (pulse c m).srd.accel_count = m.srd.accel_count) := by
  rw [pulse_eq_process c m hi]
  constructor
  · intro hrs hlo hneg hstop
    have ha : i32 (m.srd.accel_count + 1) = m.srd.accel_count + 1 :=
      i32_of_range (by omega) (by omega)
    by_cases h0 : 0 ≤ m.srd.accel_count + 1
    · have hz : i32 (m.srd.accel_count + 1) = 0 := by omega
      have hden : recur_den 0 = 1 := by decide
      simp [process_step, hrs, hz, recur_rest, hden]
    · simp [process_step, hrs, ha, h0] at hstop
  · intro hrs
    simp [process_step, hrs]

/-- Witness of C8: the last DECEL pulse of the ten-step move, and a pulse on
the machine stopped in the middle of ACCEL. -/
theorem stop_resets_witness :
    ((pulse (0, 0) { last_decel_state with i := 0 }).rest = 0 ∧
      (pulse (0, 0) { last_decel_state with i := 0 }).srd.accel_count = 0) ∧
    ((pulse (0, 0) stopped_mid_accel).srd.run_state = RunState.STOP ∧
      (pulse (0, 0) stopped_mid_accel).rest = 0 ∧
      (pulse (0, 0) stopped_mid_accel).step_count = 0 ∧
      (pulse (0, 0) stopped_mid_accel).srd.accel_count = stopped_mid_accel.srd.accel_count) :=
  ⟨(stop_resets { last_decel_state with i := 0 } (0, 0) rfl).1 rfl (by decide) (by decide)
      (by decide),
   (stop_resets stopped_mid_accel (0, 0) rfl).2 rfl⟩

/-- C8 (counterexample). On the machine forced to STOP in the middle of ACCEL
(`accel_count = 3`), a pulse leaves `run_state = STOP` and `rest = 0`, but
`accel_count` is still 3. -/
theorem stop_branch_keeps_accel_count :
    stopped_mid_accel.srd.run_state = RunState.STOP ∧
    (pulse (0, 0) stopped_mid_accel).srd.run_state = RunState.STOP ∧
    (pulse (0, 0) stopped_mid_accel).rest = 0 ∧
    (pulse (0, 0) stopped_mid_accel).srd.accel_count = 3 ∧
    ¬ ((pulse (0, 0) stopped_mid_accel).srd.accel_count = 0) := by
  decide

/-! ## The sample states are states of planned moves -/

set_option maxRecDepth 100000 in
/-- The sample machines used in the statements carry the profile, step counter
and remainder that the planned moves reach after the stated number of
pulses. -/
theorem sample_states_reached :
    (planned K_sample idle 10 10 10 1000).map (fun m0 => (m0.srd, m0.step_count, m0.rest)) =
      some (accel_state.srd, accel_state.step_count, accel_state.rest) ∧
    (planned K_sample idle 10 10 10 1000).map
        (fun m0 =>
          ((run_pulses (List.replicate 6 (0, 0)) m0).srd,
           (run_pulses (List.replicate 6 (0, 0)) m0).step_count,
           (run_pulses (List.replicate 6 (0, 0)) m0).rest)) =
      some (decel_state.srd, decel_state.step_count, decel_state.rest) ∧
    (planned K_sample idle 10 10 10 1000).map
        (fun m0 =>
          ((run_pulses (List.replicate 9 (0, 0)) m0).srd,
           (run_pulses (List.replicate 9 (0, 0)) m0).step_count,
           (run_pulses (List.replicate 9 (0, 0)) m0).rest)) =
      some (last_decel_state.srd, last_decel_state.step_count, last_decel_state.rest) ∧
    (planned K_sample idle 10 30 10 1000).map
        (fun m0 =>
          ((run_pulses (List.replicate 8 (0, 0)) m0).srd,
           (run_pulses (List.replicate 8 (0, 0)) m0).step_count,
           (run_pulses (List.replicate 8 (0, 0)) m0).rest)) =
      some (decel_wrap_state.srd, decel_wrap_state.step_count, decel_wrap_state.rest) ∧
    (planned K_sample idle 10 10 10 1000).map
        (fun m0 =>
          ({ (run_pulses (List.replicate 3 (0, 0)) m0).srd with run_state := RunState.STOP },
           (run_pulses (List.replicate 3 (0, 0)) m0).step_count,
           (run_pulses (List.replicate 3 (0, 0)) m0).rest)) =
      some (stopped_mid_accel.srd, stopped_mid_accel.step_count, stopped_mid_accel.rest) := by
  decide

/-! ## Direction and magnitude of the request -/

/-- The planned profile depends on `step` only through its direction and the
unsigned value of `step` after the sign has been removed. -/
theorem plan_srd_congr (K : Consts) (s1 s2 accel decel speed : Int)
    (h1 : s1 ≠ 0) (h2 : s2 ≠ 0) (hu : u32 (plan_abs s1) = u32 (plan_abs s2))
    (hone : plan_abs s1 = 1 ↔ plan_abs s2 = 1) (hzero : plan_abs s1 = 0 ↔ plan_abs s2 = 0) :
    plan_srd K s1 accel decel speed =
      (plan_srd K s2 accel decel speed).map (fun p => { p with dir := plan_dir s1 }) := by
  have hal : plan_accel_lim (plan_abs s1) accel decel = plan_accel_lim (plan_abs s2) accel decel := by
    unfold plan_accel_lim; rw [hu]
  have hdv : ∀ M al, plan_decel_val (plan_abs s1) accel decel M al =
      plan_decel_val (plan_abs s2) accel decel M al := by
    intro M al; unfold plan_decel_val; rw [hu]
  have hds : ∀ v, u32 (i32 (plan_abs s1 + v)) = u32 (i32 (plan_abs s2 + v)) := by
    intro v; unfold u32 i32 at *; omega
  unfold plan_srd
  simp only [h1, h2, if_false]
  by_cases c1 : plan_abs s2 = 1
  · simp [c1, hone.2 c1]
  · have c1' : ¬ plan_abs s1 = 1 := fun h => c1 (hone.1 h)
    by_cases c0 : plan_abs s2 = 0
    · simp [c1, c1', c0, hzero.2 c0]
    · have c0' : ¬ plan_abs s1 = 0 := fun h => c0 (hzero.1 h)
      simp only [c1, c1', c0, c0', if_false, if_true, ne_eq, not_false_eq_true, hal, hdv, hds]
      cases e1 : udiv (u32 K.A_T_x10) speed with
      | none => simp
      | some q =>
        cases e2 : plan_first_delay K accel with
        | none => simp
        | some sd =>
          cases e3 : plan_max_s_lim K accel speed with
          | none => simp
          | some M =>
            cases e4 : plan_accel_lim (plan_abs s2) accel decel with
            | none => simp
            | some al =>
              cases e5 : plan_decel_val (plan_abs s2) accel decel M al with
              | none => simp [e5]
              | some v =>
                by_cases hc : sd ≤ i32 q <;> simp [e5, hc]

/-- C11. For every nonzero 32-bit signed `step` and every `accel`, `decel`,
`speed`, the planner's profile for `step` is the profile for `|step|` with the
direction replaced: every field other than `dir` is the same (and the planner
has a result for `step` exactly when it has one for `|step|`), and `dir` is
CCW exactly when `step < 0` and CW otherwise. -/
theorem direction_and_magnitude (K : Consts) (step accel decel speed : Int)
    (hlo : -2147483648 ≤ step) (hhi : step < 2147483648) (h0 : step ≠ 0) :
    plan_srd K step accel decel speed =
      (plan_srd K step.natAbs accel decel speed).map
        (fun p => { p with dir := plan_dir step }) ∧
    (∀ p, plan_srd K step accel decel speed = some p →
      (p.dir = Dir.CCW ↔ step < 0) ∧ (p.dir = Dir.CW ↔ 0 < step)) := by
  have hn0 : (step.natAbs : Int) ≠ 0 := by omega
  have hu : u32 (plan_abs step) = u32 (plan_abs step.natAbs) := by
    unfold plan_abs u32 i32; split <;> split <;> omega
  have hone : plan_abs step = 1 ↔ plan_abs step.natAbs = 1 := by
    unfold plan_abs i32; split <;> split <;> omega
  have hzero : plan_abs step = 0 ↔ plan_abs step.natAbs = 0 := by
    unfold plan_abs i32; split <;> split <;> omega
  have heq := plan_srd_congr K step step.natAbs accel decel speed h0 hn0 hu hone hzero
  refine ⟨heq, fun p hp => ?_⟩
  rw [hp] at heq
  cases hq : plan_srd K step.natAbs accel decel speed with
  | none => rw [hq] at heq; exact Option.noConfusion heq
  | some q =>
    rw [hq] at heq
    simp only [Option.map_some'] at heq
    injection heq with heq
    have hd : p.dir = plan_dir step := by rw [heq]
    rw [hd]
    unfold plan_dir
    constructor
    · constructor
      · intro h; by_contra hc; simp [hc] at h
      · intro h; simp [h]
    · constructor
      · intro h; by_contra hc
        have : step < 0 := by omega
        simp [this] at h
      · intro h
        have : ¬ step < 0 := by omega
        simp [this]

/-- Witness of C11: a backward move of 1000 steps. -/
theorem direction_and_magnitude_witness :
    plan_srd K_sample (-1000) 100 100 100 =
      (plan_srd K_sample (-1000 : Int).natAbs 100 100 100).map
        (fun p => { p with dir := plan_dir (-1000) }) ∧
    (∀ p, plan_srd K_sample (-1000) 100 100 100 = some p →
      (p.dir = Dir.CCW ↔ (-1000 : Int) < 0) ∧ (p.dir = Dir.CW ↔ (0 : Int) < -1000)) :=
  direction_and_magnitude K_sample (-1000) 100 100 100 (by decide) (by decide) (by decide)

/-! ## The STOP branch -/

/-- C12. For every state with `run_state = STOP` (in particular one forced
to STOP in the middle of ACCEL), a processed step sets `step_count = 0` and
`rest = 0`, clears the running flag, disables the output channel and keeps
`run_state = STOP`; the processed step applied twice gives the same state as
applied once.  For whole pulses (two interrupts each, from edge parity 0) the
second pulse changes nothing but the timer registers written before the
`switch`: the counter reading and the compare register. -/
theorem stop_step_idempotent (m : Machine) (c1 c2 : Int × Int)
    (hrs : m.srd.run_state = RunState.STOP) (hi : m.i = 0) :
    ((process_step m).step_count = 0 ∧ (process_step m).rest = 0 ∧
      (process_step m).running = false ∧ (process_step m).ch2_on = false ∧
      (process_step m).srd.run_state = RunState.STOP) ∧
    process_step (process_step m) = process_step m ∧
    ((pulse c1 m).step_count = 0 ∧ (pulse c1 m).rest = 0 ∧
      (pulse c1 m).running = false ∧ (pulse c1 m).ch2_on = false ∧
      (pulse c1 m).srd.run_state = RunState.STOP) ∧
    pulse c2 (pulse c1 m) = { pulse c1 m with cnt := c2.2, ccr2 := u32 c2.2 } := by
  have hp1 : pulse c1 m =
      { m with
        cnt := c1.2, ccr2 := u32 (c1.2 + m.srd.step_delay), i := 0
        step_count := 0, rest := 0, ch2_on := false, cc_flag := false, running := false
        srd := { m.srd with step_delay := 0 } } := by
    rw [pulse_eq_process c1 m hi]
    simp [process_step, hrs]
  refine ⟨?_, ?_, ?_, ?_⟩
  · simp [process_step, hrs]
  · simp [process_step, hrs]
  · rw [hp1]
    exact ⟨rfl, rfl, rfl, rfl, hrs⟩
  · rw [pulse_eq_process c2 _ (pulse_i c1 m hi), hp1]
    simp [process_step, hrs]

/-- Witness of C12: the machine forced to STOP in the middle of ACCEL. -/
theorem stop_step_idempotent_witness :
    ((process_step stopped_mid_accel).step_count = 0 ∧
      (process_step stopped_mid_accel).rest = 0 ∧
      (process_step stopped_mid_accel).running = false ∧
      (process_step stopped_mid_accel).ch2_on = false ∧
      (process_step stopped_mid_accel).srd.run_state = RunState.STOP) ∧
    process_step (process_step stopped_mid_accel) = process_step stopped_mid_accel ∧
    ((pulse (7, 9) stopped_mid_accel).step_count = 0 ∧
      (pulse (7, 9) stopped_mid_accel).rest = 0 ∧
      (pulse (7, 9) stopped_mid_accel).running = false ∧
      (pulse (7, 9) stopped_mid_accel).ch2_on = false ∧
      (pulse (7, 9) stopped_mid_accel).srd.run_state = RunState.STOP) ∧
    pulse (11, 13) (pulse (7, 9) stopped_mid_accel) =
      { pulse (7, 9) stopped_mid_accel with cnt := 13, ccr2 := u32 13 } :=
  stop_step_idempotent stopped_mid_accel (7, 9) (11, 13) rfl rfl

/-! ## The phases of a move of at least two steps -/

/-- C15 (amended). For every `step` and every nonzero `accel`, `decel` and
`speed` such that the unsigned sum `accel + decel` does not wrap to 0 and the
divisor `A_x200 * accel / 10` is not 0, no division executed by
`stepper_move_T` has a zero divisor: the planner has a result. -/
theorem planner_divisions_defined (K : Consts) (m : Machine) (step accel decel speed : Int)
    (ha : accel ≠ 0) (hd : decel ≠ 0) (hs : speed ≠ 0)
    (hK : u32 (K.A_x200 * accel) / 10 ≠ 0) (had : u32 (accel + decel) ≠ 0) :
    (plan_srd K step accel decel speed).isSome = true ∧
    (stepper_move_T K m step accel decel speed).isSome = true := by
  have hp : (plan_srd K step accel decel speed).isSome = true := by
    unfold plan_srd
    by_cases h0 : step = 0
    · simp [h0]
    · by_cases h1 : plan_abs step = 1
      · simp [h0, h1]
      · by_cases h2 : plan_abs step = 0
        · simp [h0, h1, h2]
        · have e1 : udiv (u32 K.A_T_x10) speed = some (u32 K.A_T_x10 / speed) := by
            simp [udiv, hs]
          have e2 : plan_first_delay K accel = some (i32 (K.first_delay accel)) := by
            simp [plan_first_delay, ha]
          have e3 : ∃ M, plan_max_s_lim K accel speed = some M := by
            simp [plan_max_s_lim, udiv, hK]
          have e4 : ∃ al, plan_accel_lim (plan_abs step) accel decel = some al := by
            simp [plan_accel_lim, udiv, had]
          have e5 : ∀ M al, ∃ v, plan_decel_val (plan_abs step) accel decel M al = some v := by
            intro M al
            unfold plan_decel_val
            by_cases c : al ≤ M <;> simp [c, udiv, hd]
          obtain ⟨M, hM⟩ := e3
          obtain ⟨al, hal⟩ := e4
          obtain ⟨v, hv⟩ := e5 M al
          by_cases c : i32 (K.first_delay accel) ≤ i32 (u32 K.A_T_x10 / speed) <;>
            simp [h0, h1, h2, e1, e2, hM, hal, hv, c]
  refine ⟨hp, ?_⟩
  unfold stepper_move_T
  by_cases h0 : step = 0
  · simp [h0]
  · cases h : plan_srd K step accel decel speed with
    | none => rw [h] at hp; exact absurd hp (by decide)
    | some p => simp [h0]

/-- Witness of C15: scenario B. -/
theorem planner_divisions_defined_witness :
    (plan_srd K_sample 1000 100 100 100).isSome = true ∧
    (stepper_move_T K_sample idle 1000 100 100 100).isSome = true :=
  planner_divisions_defined K_sample idle 1000 100 100 100 (by decide) (by decide) (by decide)
    (by decide) (by decide)

/-- C15 (counterexample). With `accel = 4294967295` and `decel = 1`, both
nonzero 32-bit values, the unsigned sum `accel + decel` is 0, so the division
`step * decel / (accel + decel)` of line 96 has a zero divisor: for `step = 2`
and `speed = 1` the planner has no result. -/
theorem accel_plus_decel_wraps_to_zero :
    u32 (4294967295 + 1) = 0 ∧
    plan_accel_lim (plan_abs 2) 4294967295 1 = none ∧
    plan_srd K_sample 2 4294967295 1 1 = none ∧
    stepper_move_T K_sample idle 2 4294967295 1 1 = none := by
  decide

/-! ## What a recurrence step stores -/

theorem u16_i32 (x : Int) : u16 (i32 x) = u16 x := by
  unfold u16 i32; omega

/-- C16 (amended). For every state in ACCEL (when neither the `decel_start`
nor the `min_delay` condition fires) or in DECEL, without int32 overflow in
`2 * step_delay + rest` and `4 * n + 1`, the `step_delay` stored by a pulse is
`step_delay - trunc((2 * step_delay + rest) / (4 * n + 1))` converted to
`uint16_t` (reduced modulo 65536), `n` being the incremented `accel_count`; it
is that value itself when the value lies in `[0, 65535]`.  The stored `rest`
is the matching remainder. -/
theorem recurrence_step_stores (m : Machine) (c : Int × Int) (hi : m.i = 0)
    (hrs : m.srd.run_state = RunState.DECEL ∨
      (m.srd.run_state = RunState.ACCEL ∧ ¬ (m.srd.decel_start ≤ u32 (m.step_count + 1)) ∧
        ¬ (recur_delay m.srd.step_delay m.rest (i32 (m.srd.accel_count + 1))
            ≤ m.srd.min_delay)))
    (h0 : -2147483648 ≤ 2 * m.srd.step_delay + m.rest)
    (h1 : 2 * m.srd.step_delay + m.rest < 2147483648)
    (h2 : -2147483648 ≤ 4 * (m.srd.accel_count + 1) + 1)
    (h3 : 4 * (m.srd.accel_count + 1) + 1 < 2147483648) :
    (pulse c m).srd.step_delay =
      u16 (m.srd.step_delay -
        Int.tdiv (2 * m.srd.step_delay + m.rest) (4 * (m.srd.accel_count + 1) + 1)) ∧
    (pulse c m).rest =
      Int.tmod (2 * m.srd.step_delay + m.rest) (4 * (m.srd.accel_count + 1) + 1) ∧
    (0 ≤ m.srd.step_delay -
        Int.tdiv (2 * m.srd.step_delay + m.rest) (4 * (m.srd.accel_count + 1) + 1) →
      m.srd.step_delay -
        Int.tdiv (2 * m.srd.step_delay + m.rest) (4 * (m.srd.accel_count + 1) + 1) ≤ 65535 →
      (pulse c m).srd.step_delay =
        m.srd.step_delay -
          Int.tdiv (2 * m.srd.step_delay + m.rest) (4 * (m.srd.accel_count + 1) + 1)) := by
  have ha : i32 (m.srd.accel_count + 1) = m.srd.accel_count + 1 :=
    i32_of_range (by omega) (by omega)
  have hq := recur_quot_eq m.srd.step_delay m.rest (m.srd.accel_count + 1) h0 h1 h2 h3
  have hr := recur_rest_eq m.srd.step_delay m.rest (m.srd.accel_count + 1) h0 h1 h2 h3
  have hdel : recur_delay m.srd.step_delay m.rest (m.srd.accel_count + 1) =
      u16 (m.srd.step_delay -
        Int.tdiv (2 * m.srd.step_delay + m.rest) (4 * (m.srd.accel_count + 1) + 1)) := by
    unfold recur_delay
    rw [u16_i32, hq]
  have hstore : (pulse c m).srd.step_delay =
      recur_delay m.srd.step_delay m.rest (m.srd.accel_count + 1) ∧
      (pulse c m).rest = recur_rest m.srd.step_delay m.rest (m.srd.accel_count + 1) := by
    rw [pulse_eq_process c m hi]
    rcases hrs with hrs | ⟨hrs, hn1, hn2⟩
    · by_cases hz : 0 ≤ m.srd.accel_count + 1 <;>
        simp [process_step, hrs, hz, ha]
    · rw [ha] at hn2
      simp [process_step, hrs, hn1, hn2, ha]
  refine ⟨by rw [hstore.1, hdel], by rw [hstore.2, hr], fun hlo hhi => ?_⟩
  rw [hstore.1, hdel]
  exact u16_of_range hlo (by omega)

/-- Witness of C16: a DECEL pulse in the middle of the ramp of the ten-step
move. -/
theorem recurrence_step_stores_witness :
    (pulse (0, 0) decel_state).srd.step_delay =
      u16 (decel_state.srd.step_delay -
        Int.tdiv (2 * decel_state.srd.step_delay + decel_state.rest)
          (4 * (decel_state.srd.accel_count + 1) + 1)) ∧
    (pulse (0, 0) decel_state).rest =
      Int.tmod (2 * decel_state.srd.step_delay + decel_state.rest)
        (4 * (decel_state.srd.accel_count + 1) + 1) ∧
    (0 ≤ decel_state.srd.step_delay -
        Int.tdiv (2 * decel_state.srd.step_delay + decel_state.rest)
          (4 * (decel_state.srd.accel_count + 1) + 1) →
      decel_state.srd.step_delay -
        Int.tdiv (2 * decel_state.srd.step_delay + decel_state.rest)
          (4 * (decel_state.srd.accel_count + 1) + 1) ≤ 65535 →
      (pulse (0, 0) decel_state).srd.step_delay =
        decel_state.srd.step_delay -
          Int.tdiv (2 * decel_state.srd.step_delay + decel_state.rest)
            (4 * (decel_state.srd.accel_count + 1) + 1)) :=
  recurrence_step_stores decel_state (0, 0) rfl (Or.inl rfl) (by decide) (by decide)
    (by decide) (by decide)

/-- C16 (counterexample). On the last DECEL pulse of the ten-step move
(`step_delay = 54292`, `rest = 0`, `accel_count = -1`, so `n = 0` and the
divisor is 1) the value `step_delay - trunc((2 * step_delay + rest) / 1)` is
`-54292`, and the stored `step_delay` is `11244`. -/
theorem last_step_stores_wrapped_delay :
    last_decel_state.srd.run_state = RunState.DECEL ∧
    last_decel_state.srd.step_delay -
        Int.tdiv (2 * last_decel_state.srd.step_delay + last_decel_state.rest)
          (4 * (last_decel_state.srd.accel_count + 1) + 1) = -54292 ∧
    (pulse (0, 0) { last_decel_state with i := 0 }).srd.step_delay = 11244 := by
  decide

/-! ## The two edges of a pulse -/

/-- The state machine does not write the compare register. -/
theorem process_step_ccr2 (m : Machine) : (process_step m).ccr2 = m.ccr2 := by
  unfold process_step
  cases m.srd.run_state <;> simp only [] <;> (repeat' split) <;> rfl

/-- C17. For every state with edge parity 0, an interrupt (the first edge of
a pulse) leaves `run_state`, `step_delay`, `accel_count`, `step_count`, `rest`
and `last_accel_delay` unchanged: it clears the interrupt flag, sets the
parity to 1 and programs the compare register to counter + `step_delay`.  The
next interrupt programs the compare register with the same, not yet updated
`step_delay` and runs the state machine once, returning to parity 0. -/
theorem first_edge_only_arms (m : Machine) (c1 c2 : Int) (hi : m.i = 0) :
    isr c1 m =
      { m with cnt := c1, cc_flag := false, ccr2 := u32 (c1 + m.srd.step_delay), i := 1 } ∧
    ((isr c1 m).srd = m.srd ∧ (isr c1 m).step_count = m.step_count ∧
      (isr c1 m).rest = m.rest ∧ (isr c1 m).last_accel_delay = m.last_accel_delay) ∧
    isr c2 (isr c1 m) = process_step
      { m with cnt := c2, cc_flag := false, ccr2 := u32 (c2 + m.srd.step_delay), i := 0 } ∧
    (isr c2 (isr c1 m)).ccr2 = u32 (c2 + m.srd.step_delay) ∧
    (isr c2 (isr c1 m)).i = 0 := by
  have e1 : isr c1 m =
      { m with cnt := c1, cc_flag := false, ccr2 := u32 (c1 + m.srd.step_delay), i := 1 } := by
    simp [isr, speed_decision, hi, u8]
  have e2 : isr c2 (isr c1 m) = process_step
      { m with cnt := c2, cc_flag := false, ccr2 := u32 (c2 + m.srd.step_delay), i := 0 } :=
    pulse_eq_process (c1, c2) m hi
  refine ⟨e1, ?_, e2, ?_, pulse_i (c1, c2) m hi⟩
  · rw [e1]
    exact ⟨rfl, rfl, rfl, rfl⟩
  · rw [e2, process_step_ccr2]

/-- Witness of C17: the two edges of the first pulse of the ten-step move. -/
theorem first_edge_only_arms_witness :
    isr 100 accel_state =
      { accel_state with
        cnt := 100, cc_flag := false, ccr2 := u32 (100 + accel_state.srd.step_delay), i := 1 } ∧
    ((isr 100 accel_state).srd = accel_state.srd ∧
      (isr 100 accel_state).step_count = accel_state.step_count ∧
      (isr 100 accel_state).rest = accel_state.rest ∧
      (isr 100 accel_state).last_accel_delay = accel_state.last_accel_delay) ∧
    isr 200 (isr 100 accel_state) = process_step
      { accel_state with
        cnt := 200, cc_flag := false, ccr2 := u32 (200 + accel_state.srd.step_delay), i := 0 } ∧
    (isr 200 (isr 100 accel_state)).ccr2 = u32 (200 + accel_state.srd.step_delay) ∧
    (isr 200 (isr 100 accel_state)).i = 0 :=
  first_edge_only_arms accel_state 100 200 rfl

/-! ## The recurrence divisor -/

/-- C18. For every `accel_count` value `n` the recurrence divisor `4 * n + 1`
is not zero: not as an integer, not modulo `2 ^ 32`, and not as the int32 value
the handler divides by (also for the incremented counter). -/
theorem recurrence_divisor_nonzero (n : Int) :
    4 * n + 1 ≠ 0 ∧ (4 * n + 1) % 4294967296 ≠ 0 ∧ recur_den n ≠ 0 ∧
    recur_den (i32 (n + 1)) ≠ 0 := by
  refine ⟨by omega, by omega, recur_den_ne_zero n, recur_den_ne_zero _⟩

/-! ## Ranges of the stored remainder and delay -/

/-- The remainder of a non-negative dividend is non-negative and below the
magnitude of the divisor. -/
theorem tmod_range (a b : Int) (ha : 0 ≤ a) (hb : b ≠ 0) :
    0 ≤ Int.tmod a b ∧ Int.tmod a b < b.natAbs := by
  refine ⟨Int.tmod_nonneg b ha, ?_⟩
  by_cases hpos : 0 < b
  · have := Int.tmod_lt_of_pos a hpos
    omega
  · have hneg : 0 < -b := by omega
    have h := Int.tmod_lt_of_pos a hneg
    rw [Int.tmod_neg] at h
    omega

/-- C19 (amended). For every state in ACCEL or DECEL with `step_delay ≥ 0`,
`rest ≥ 0` and `2 * step_delay + rest < 2 ^ 31` (the int32 dividend does not
overflow), after a pulse the stored `rest` satisfies `0 ≤ rest < |d|`, where
`d` is the int32 divisor `4 * n + 1` and `n` the incremented `accel_count`
(`rest = 0` if the step switched to RUN), and the stored `step_delay` lies in
`[0, 65535]`; so `rest ≥ 0` and `step_delay ≥ 0` are preserved. -/
theorem rest_and_delay_ranges (m : Machine) (c : Int × Int) (hi : m.i = 0)
    (hrs : m.srd.run_state = RunState.ACCEL ∨ m.srd.run_state = RunState.DECEL)
    (hsd : 0 ≤ m.srd.step_delay) (hr : 0 ≤ m.rest)
    (hnum : 2 * m.srd.step_delay + m.rest < 2147483648) :
    0 ≤ (pulse c m).rest ∧
    (pulse c m).rest < (recur_den (i32 (m.srd.accel_count + 1))).natAbs ∧
    ((pulse c m).srd.run_state = RunState.RUN → (pulse c m).rest = 0) ∧
    0 ≤ (pulse c m).srd.step_delay ∧ (pulse c m).srd.step_delay ≤ 65535 := by
  have hden := recur_den_ne_zero (i32 (m.srd.accel_count + 1))
  have hnumeq := recur_num_eq m.srd.step_delay m.rest (by omega) hnum
  have hrest : 0 ≤ recur_rest m.srd.step_delay m.rest (i32 (m.srd.accel_count + 1)) ∧
      recur_rest m.srd.step_delay m.rest (i32 (m.srd.accel_count + 1)) <
        (recur_den (i32 (m.srd.accel_count + 1))).natAbs := by
    unfold recur_rest
    rw [hnumeq]
    exact tmod_range _ _ (by omega) hden
  have hdel := u16_bounds (i32 (m.srd.step_delay -
    recur_quot m.srd.step_delay m.rest (i32 (m.srd.accel_count + 1))))
  have hmin := u16_bounds m.srd.min_delay
  have hpos : (0 : Int) < (recur_den (i32 (m.srd.accel_count + 1))).natAbs := by omega
  rw [pulse_eq_process c m hi]
  rcases hrs with hrs | hrs
  · by_cases h1 : m.srd.decel_start ≤ u32 (m.step_count + 1)
    · simp only [process_step, hrs, h1, if_true]
      refine ⟨hrest.1, hrest.2, fun h => RunState.noConfusion h, hdel.1, ?_⟩
      have := hdel.2
      show recur_delay _ _ _ ≤ 65535
      unfold recur_delay; omega
    · by_cases h2 : recur_delay m.srd.step_delay m.rest (i32 (m.srd.accel_count + 1))
          ≤ m.srd.min_delay
      · simp only [process_step, hrs, h1, h2, if_true, if_false]
        refine ⟨le_refl _, hpos, fun _ => trivial, hmin.1, ?_⟩
        have := hmin.2
        show u16 m.srd.min_delay ≤ 65535
        omega
      · simp only [process_step, hrs, h1, h2, if_false]
        refine ⟨hrest.1, hrest.2, fun h => ?_, hdel.1, ?_⟩
        · exact RunState.noConfusion h
        · have := hdel.2
          show recur_delay _ _ _ ≤ 65535
          unfold recur_delay; omega
  · by_cases h1 : 0 ≤ i32 (m.srd.accel_count + 1)
    · simp only [process_step, hrs, h1, if_true]
      refine ⟨hrest.1, hrest.2, fun h => RunState.noConfusion h, hdel.1, ?_⟩
      have := hdel.2
      show recur_delay _ _ _ ≤ 65535
      unfold recur_delay; omega
    · simp only [process_step, hrs, h1, if_false]
      refine ⟨hrest.1, hrest.2, fun h => ?_, hdel.1, ?_⟩
      · exact RunState.noConfusion h
      · have := hdel.2
        show recur_delay _ _ _ ≤ 65535
        unfold recur_delay; omega

/-- Witness of C19: a DECEL pulse in the middle of the ramp of the ten-step
move. -/
theorem rest_and_delay_ranges_witness :
    0 ≤ (pulse (0, 0) decel_state).rest ∧
    (pulse (0, 0) decel_state).rest <
      (recur_den (i32 (decel_state.srd.accel_count + 1))).natAbs ∧
    ((pulse (0, 0) decel_state).srd.run_state = RunState.RUN →
      (pulse (0, 0) decel_state).rest = 0) ∧
    0 ≤ (pulse (0, 0) decel_state).srd.step_delay ∧
    (pulse (0, 0) decel_state).srd.step_delay ≤ 65535 :=
  rest_and_delay_ranges decel_state (0, 0) rfl (Or.inr rfl) (by decide) (by decide)
    (by decide)

/-- C19 (counterexample). In ACCEL with `step_delay = 1` (below `2 ^ 30`) and
`rest = 2147483647` (non-negative), the int32 dividend `2 * 1 + 2147483647`
wraps to `-2147483647`; the divisor is 5 and the stored `rest` is `-2`. -/
theorem large_rest_turns_negative :
    rest_overflow_state.srd.run_state = RunState.ACCEL ∧
    0 ≤ rest_overflow_state.srd.step_delay ∧
    rest_overflow_state.srd.step_delay < 1073741824 ∧
    0 ≤ rest_overflow_state.rest ∧
    recur_num rest_overflow_state.srd.step_delay rest_overflow_state.rest = -2147483647 ∧
    (pulse (0, 0) rest_overflow_state).srd.run_state = RunState.ACCEL ∧
    (pulse (0, 0) rest_overflow_state).rest = -2 ∧
    ¬ (0 ≤ (pulse (0, 0) rest_overflow_state).rest) := by
  decide

/-! ## Moves planned directly in RUN -/

set_option maxRecDepth 100000 in
/-- In scenario C every ACCEL pulse before `decel_start` computes a delay
above `min_delay`, and the ten pulses of the move are never taken in RUN. -/
theorem scenario_c_has_no_cruise :
    AccelAbove (List.replicate 10 (0, 0)) accel_state ∧
    (List.range 11).all
      (fun k => decide ((run_pulses (List.replicate k (0, 0)) accel_state).srd.run_state
        ≠ RunState.RUN)) = true := by
  decide

end StepMotor
